import Mathlib

/-!
Shallow embedding of the Token-2022 AMM core
(`programs/token2022-amm/src/state/amm_pool.rs`,
 `programs/token2022-amm/src/state/whitelist.rs`,
 `programs/token2022-amm/src/state/hook_proposal.rs`).

`u64` values are modelled as `ℕ` together with explicit wrapping
(`% 2 ^ 64`) at every multiplication / addition / subtraction, which is
the release-build semantics of Rust integer arithmetic.  Integer division
by zero aborts in Rust in every build profile; it is modelled by the
dedicated failure value `Failure.divByZero`.  `Pubkey` values are opaque
identifiers and are modelled as `ℕ`; `i64` timestamps are modelled as `ℤ`.
-/

/-- The relevant variants of the Rust `AmmError` enum (`error.rs` and the
governance copy in `hook_proposal.rs`). -/
inductive AmmError where
  | invalidAmount
  | insufficientLiquidity
  | insufficientOutputAmount
  | insufficientLPTokens
  | whitelistFull
  | hookAlreadyWhitelisted
  | hookNotWhitelisted
  | proposalNotActive
  | votingPeriodNotExpired
  deriving DecidableEq, Repr

/-- Outcome classification for fallible pool code: either a named program
error, or an abort of the Rust runtime (integer division by zero, which
panics in every build profile). -/
inductive Failure where
  | amm (e : AmmError)
  | divByZero
  deriving DecidableEq, Repr

set_option maxRecDepth 100000

deriving instance DecidableEq for Except

/-- Wrapping u64 multiplication (release-build Rust `*`). -/
def mul64 (a b : ℕ) : ℕ := (a * b) % 2 ^ 64

/-- Wrapping u64 addition (release-build Rust `+`). -/
def add64 (a b : ℕ) : ℕ := (a + b) % 2 ^ 64

/-- Wrapping u64 subtraction (release-build Rust `-`), for `a b < 2^64`. -/
def sub64 (a b : ℕ) : ℕ := (a + 2 ^ 64 - b) % 2 ^ 64

/-- Pool state (`AmmPool` in `amm_pool.rs`).  `Pubkey` fields are opaque
naturals; the `reserved` padding is carried along verbatim. -/
structure AmmPool where
  authority : ℕ
  token_a_mint : ℕ
  token_b_mint : ℕ
  token_a_vault : ℕ
  token_b_vault : ℕ
  lp_mint : ℕ
  total_lp_supply : ℕ
  token_a_reserve : ℕ
  token_b_reserve : ℕ
  fee_rate : ℕ
  min_liquidity : ℕ
  bump : ℕ
  reserved : List ℕ
  deriving DecidableEq, Repr

namespace AmmPool

/-- `AmmPool::initialize` (the source name is a reserved word here):
writes every field of the account. -/
def init (authority token_a_mint token_b_mint token_a_vault
    token_b_vault lp_mint : ℕ) : AmmPool :=
  { authority := authority
    token_a_mint := token_a_mint
    token_b_mint := token_b_mint
    token_a_vault := token_a_vault
    token_b_vault := token_b_vault
    lp_mint := lp_mint
    total_lp_supply := 0
    token_a_reserve := 0
    token_b_reserve := 0
    fee_rate := 30
    min_liquidity := 1000
    bump := 0
    reserved := List.replicate 8 0 }

/-- `AmmPool::update_config`: overwrites both fields, no validation. -/
def update_config (p : AmmPool) (fee_rate min_liquidity : ℕ) : AmmPool :=
  { p with fee_rate := fee_rate, min_liquidity := min_liquidity }

/-- `AmmPool::calculate_swap_output`.  The `require!` guards are taken in
source order; the two u64 multiplications and the u64 addition wrap, and
the final division aborts if the wrapped denominator is zero. -/
def calculate_swap_output (p : AmmPool) (amount_in : ℕ) :
    Except Failure ℕ :=
  if amount_in = 0 then .error (.amm .invalidAmount)
  else if p.token_a_reserve = 0 then .error (.amm .insufficientLiquidity)
  else if p.token_b_reserve = 0 then .error (.amm .insufficientLiquidity)
  else
    let fee_amount := mul64 amount_in p.fee_rate / 10000
    let amount_in_after_fee := sub64 amount_in fee_amount
    let denom := add64 p.token_a_reserve amount_in_after_fee
    if denom = 0 then .error .divByZero
    else
      let amount_out := mul64 p.token_b_reserve amount_in_after_fee / denom
      if amount_out = 0 then .error (.amm .insufficientOutputAmount)
      else if amount_out ≥ p.token_b_reserve then
        .error (.amm .insufficientLiquidity)
      else .ok amount_out

/-- `AmmPool::calculate_lp_tokens_for_liquidity`.  In the proportional
branch `lp_tokens_a` is computed (and its division can abort on a zero
reserve) before `lp_tokens_b`. -/
def calculate_lp_tokens_for_liquidity (p : AmmPool) (amount_a amount_b : ℕ) :
    Except Failure ℕ :=
  if amount_a = 0 then .error (.amm .invalidAmount)
  else if amount_b = 0 then .error (.amm .invalidAmount)
  else if p.total_lp_supply = 0 then
    let lp_tokens := Nat.sqrt (mul64 amount_a amount_b)
    if lp_tokens < p.min_liquidity then .error (.amm .insufficientLPTokens)
    else .ok lp_tokens
  else if p.token_a_reserve = 0 then .error .divByZero
  else
    let lp_tokens_a := mul64 amount_a p.total_lp_supply / p.token_a_reserve
    if p.token_b_reserve = 0 then .error .divByZero
    else
      let lp_tokens_b := mul64 amount_b p.total_lp_supply / p.token_b_reserve
      .ok (min lp_tokens_a lp_tokens_b)

/-- `AmmPool::update_swap_state`.  The source increments
`token_a_reserve` first and only then checks the output reserve, so the
post-call state is returned alongside the `Result`: on the
`InsufficientLiquidity` path the struct already carries the incremented
input reserve. -/
def update_swap_state (p : AmmPool) (amount_in amount_out : ℕ) :
    Except Failure Unit × AmmPool :=
  let p1 := { p with token_a_reserve := add64 p.token_a_reserve amount_in }
  if p1.token_b_reserve < amount_out then
    (.error (.amm .insufficientLiquidity), p1)
  else
    (.ok (), { p1 with token_b_reserve := p1.token_b_reserve - amount_out })

/-- `AmmPool::add_liquidity`: three wrapping additions, never fails. -/
def add_liquidity (p : AmmPool) (amount_a amount_b lp_tokens : ℕ) : AmmPool :=
  { p with
    token_a_reserve := add64 p.token_a_reserve amount_a
    token_b_reserve := add64 p.token_b_reserve amount_b
    total_lp_supply := add64 p.total_lp_supply lp_tokens }

/-- `AmmPool::remove_liquidity`: all three checks precede every write. -/
def remove_liquidity (p : AmmPool) (amount_a amount_b lp_tokens : ℕ) :
    Except Failure AmmPool :=
  if p.token_a_reserve < amount_a then .error (.amm .insufficientLiquidity)
  else if p.token_b_reserve < amount_b then
    .error (.amm .insufficientLiquidity)
  else if p.total_lp_supply < lp_tokens then
    .error (.amm .insufficientLPTokens)
  else .ok { p with
    token_a_reserve := p.token_a_reserve - amount_a
    token_b_reserve := p.token_b_reserve - amount_b
    total_lp_supply := p.total_lp_supply - lp_tokens }

/-- `AmmPool::get_pool_info`. -/
def get_pool_info (p : AmmPool) : ℕ × ℕ × ℕ :=
  (p.token_a_reserve, p.token_b_reserve, p.total_lp_supply)

end AmmPool

/-- The swap quote exactly as the specification words it: unbounded
integer arithmetic with floor division (`feeAmount = ⌊amountIn·feeRateBps
/ 10000⌋`, `amountOut = ⌊reserveOut·amountInAfterFee / (reserveIn +
amountInAfterFee)⌋`), with the stated error cases. -/
def specSwapOutput (reserveIn reserveOut feeRateBps amountIn : ℕ) :
    Except AmmError ℕ :=
  if amountIn = 0 then .error .invalidAmount
  else if reserveIn = 0 ∨ reserveOut = 0 then .error .insufficientLiquidity
  else
    let feeAmount := amountIn * feeRateBps / 10000
    let amountInAfterFee := amountIn - feeAmount
    let amountOut := reserveOut * amountInAfterFee /
      (reserveIn + amountInAfterFee)
    if amountOut = 0 then .error .insufficientOutputAmount
    else if amountOut ≥ reserveOut then .error .insufficientLiquidity
    else .ok amountOut

/-- Embed a named program error into the `Failure` classification. -/
def liftAmm : Except AmmError α → Except Failure α
  | .ok a => .ok a
  | .error e => .error (.amm e)

/-- The after-fee input amount in exact arithmetic. -/
def afterFee (feeRateBps amountIn : ℕ) : ℕ :=
  amountIn - amountIn * feeRateBps / 10000

/-- The side conditions under which every u64 operation inside
`calculate_swap_output` coincides with exact integer arithmetic: a
basis-point fee rate and no multiplication or addition reaching `2^64`. -/
def swapArithmeticInU64 (p : AmmPool) (amountIn : ℕ) : Prop :=
  amountIn < 2 ^ 64 ∧
  p.fee_rate ≤ 10000 ∧
  amountIn * p.fee_rate < 2 ^ 64 ∧
  p.token_b_reserve * afterFee p.fee_rate amountIn < 2 ^ 64 ∧
  p.token_a_reserve + afterFee p.fee_rate amountIn < 2 ^ 64

instance (p : AmmPool) (amountIn : ℕ) :
    Decidable (swapArithmeticInU64 p amountIn) := by
  unfold swapArithmeticInU64; infer_instance

/-- Whitelist state (`TransferHookWhitelist` in `whitelist.rs`): a
32-slot `Pubkey` array with a `hook_count` prefix length. -/
structure TransferHookWhitelist where
  authority : ℕ
  hook_count : ℕ
  reserved : ℕ
  whitelisted_hooks : Fin 32 → ℕ
  padding : List ℕ

namespace TransferHookWhitelist

/-- `TransferHookWhitelist::initialize` (reserved word here). -/
def init (authority : ℕ) : TransferHookWhitelist :=
  { authority := authority
    hook_count := 0
    reserved := 0
    whitelisted_hooks := fun _ => 0
    padding := List.replicate 8 0 }

/-- `TransferHookWhitelist::is_hook_whitelisted`: linear scan of the
slots below `hook_count` (meaningful whenever `hook_count ≤ 32`). -/
def is_hook_whitelisted (w : TransferHookWhitelist) (hook_program_id : ℕ) :
    Bool :=
  decide (∃ i : Fin 32, i.val < w.hook_count ∧
    w.whitelisted_hooks i = hook_program_id)

/-- `TransferHookWhitelist::add_hook`. -/
def add_hook (w : TransferHookWhitelist) (hook_program_id : ℕ) :
    Except AmmError TransferHookWhitelist :=
  if w.hook_count ≥ 32 then .error .whitelistFull
  else if w.is_hook_whitelisted hook_program_id then
    .error .hookAlreadyWhitelisted
  else .ok { w with
    whitelisted_hooks := fun j =>
      if j.val = w.hook_count then hook_program_id
      else w.whitelisted_hooks j
    hook_count := w.hook_count + 1 }

/-- `TransferHookWhitelist::remove_hook`: finds the first matching slot,
shifts the following slots left, zeroes the vacated trailing slot and
decrements the count. -/
def remove_hook (w : TransferHookWhitelist) (hook_program_id : ℕ) :
    Except AmmError TransferHookWhitelist :=
  match (List.finRange 32).find? (fun i =>
      decide (i.val < w.hook_count ∧
        w.whitelisted_hooks i = hook_program_id)) with
  | none => .error .hookNotWhitelisted
  | some i =>
    .ok { w with
      whitelisted_hooks := fun j =>
        if j.val < i.val then w.whitelisted_hooks j
        else if h : j.val + 1 < w.hook_count ∧ j.val + 1 < 32 then
          w.whitelisted_hooks ⟨j.val + 1, h.2⟩
        else if j.val + 1 = w.hook_count then 0
        else w.whitelisted_hooks j
      hook_count := w.hook_count - 1 }

/-- The whitelist invariant of the specification: at most 32 entries and
no duplicates among the first `hook_count` slots. -/
def Inv (w : TransferHookWhitelist) : Prop :=
  w.hook_count ≤ 32 ∧
  ∀ i j : Fin 32, i.val < w.hook_count → j.val < w.hook_count →
    i ≠ j → w.whitelisted_hooks i ≠ w.whitelisted_hooks j

instance (w : TransferHookWhitelist) : Decidable (Inv w) := by
  unfold Inv; infer_instance

end TransferHookWhitelist

/-- `ProposalStatus` in `hook_proposal.rs`. -/
inductive ProposalStatus where
  | active
  | approved
  | rejected
  | cancelled
  | executed
  deriving DecidableEq, Repr

/-- `Vote` record in `hook_proposal.rs`. -/
structure Vote where
  voter : ℕ
  vote : Bool
  stake_amount : ℕ
  timestamp : ℤ
  deriving DecidableEq, Repr

/-- Proposal state (`HookProposal` in `hook_proposal.rs`). -/
structure HookProposal where
  proposer : ℕ
  hook_program_id : ℕ
  description : String
  audit_report_url : String
  proposer_stake : ℕ
  created_at : ℤ
  voting_deadline : ℤ
  status : ProposalStatus
  total_approve_stake : ℕ
  total_reject_stake : ℕ
  votes : List Vote
  deriving DecidableEq, Repr

namespace HookProposal

/-- `HookProposal::MIN_APPROVE_STAKE`: 100 SOL in lamports. -/
def MIN_APPROVE_STAKE : ℕ := 100 * 1000000000

/-- `HookProposal::is_approved`. -/
def is_approved (p : HookProposal) : Bool :=
  decide (p.total_approve_stake ≥ MIN_APPROVE_STAKE)

/-- `HookProposal::finalize`; the clock reading
`Clock::get()?.unix_timestamp` is the explicit `now` argument. -/
def finalize (now : ℤ) (p : HookProposal) : Except AmmError HookProposal :=
  if p.status ≠ ProposalStatus.active then .error .proposalNotActive
  else if now < p.voting_deadline then .error .votingPeriodNotExpired
  else if p.is_approved then .ok { p with status := ProposalStatus.approved }
  else .ok { p with status := ProposalStatus.rejected }

end HookProposal

/-! ### Exact model of the `f64` arithmetic in `calculate_tokens_for_lp_burn`

The source computes `lp_tokens_to_burn as f64 / total_lp_supply as f64`,
multiplies each reserve (converted with `as f64`) by that ratio and casts
back with `as u64`.  Every value arising there is a non-negative finite
double well inside the normal range (magnitudes between `2^-64` and
`2^64`), so a double is modelled by its exact rational value and each
operation by correct round-to-nearest, ties-to-even at 53 bits of
precision, which is the IEEE 754 binary64 semantics of Rust's `f64`
division, multiplication and `u64 as f64` conversion. -/

/-- Fuel-bounded `⌊log₂ n⌋` (structural recursion so that the kernel can
evaluate it on literals). -/
def log2Aux : ℕ → ℕ → ℕ
  | 0, _ => 0
  | fuel + 1, n => if n < 2 then 0 else log2Aux fuel (n / 2) + 1

/-- `⌊log₂ n⌋` for `n < 2 ^ 4096` (ample for every value that appears in
the pool's `f64` computations). -/
def floorLog2 (n : ℕ) : ℕ := log2Aux 4096 n

/-- Round the ratio `N / D` to the nearest integer, ties to even. -/
def roundHalfEven (N D : ℕ) : ℕ :=
  if 2 * (N % D) < D then N / D
  else if D < 2 * (N % D) then N / D + 1
  else if N / D % 2 = 0 then N / D else N / D + 1

/-- Binade exponent of the positive rational `n / d`: the unique `e` with
`2 ^ e ≤ n / d < 2 ^ (e + 1)`. -/
def rexp (n d : ℕ) : ℤ :=
  if d * 2 ^ floorLog2 n ≤ n * 2 ^ floorLog2 d then
    (floorLog2 n : ℤ) - floorLog2 d
  else (floorLog2 n : ℤ) - floorLog2 d - 1

/-- A non-negative binary64 value, represented exactly as the dyadic
`m · 2 ^ e` (after rounding, `m` lies in `[2^52, 2^53]`, or is `0`). -/
structure F64 where
  m : ℕ
  e : ℤ
  deriving DecidableEq, Repr

/-- Round the non-negative rational `n / d` to the nearest binary64
value (ties to even): the ratio is scaled into `[2^52, 2^53)` and its
53-bit significand rounded. -/
def rnd (n d : ℕ) : F64 :=
  if n = 0 ∨ d = 0 then ⟨0, 0⟩
  else
    ⟨roundHalfEven (n * 2 ^ (52 - rexp n d).toNat)
      (d * 2 ^ (rexp n d - 52).toNat),
     rexp n d - 52⟩

/-- Rust `x as f64` for `x : u64` (round to nearest, ties to even). -/
def toF64 (n : ℕ) : F64 := rnd n 1

/-- Correctly rounded `f64` division: the exact rational quotient of the
two dyadics, rounded. -/
def f64Div (a b : F64) : F64 :=
  if 0 ≤ a.e - b.e then rnd (a.m * 2 ^ (a.e - b.e).toNat) b.m
  else rnd a.m (b.m * 2 ^ (b.e - a.e).toNat)

/-- Correctly rounded `f64` multiplication: the exact dyadic product,
rounded. -/
def f64Mul (a b : F64) : F64 :=
  if 0 ≤ a.e + b.e then rnd (a.m * b.m * 2 ^ (a.e + b.e).toNat) 1
  else rnd (a.m * b.m) (2 ^ (-(a.e + b.e)).toNat)

/-- Rust `x as u64` for a finite non-negative `f64`: truncate toward
zero and saturate at `u64::MAX`. -/
def f64ToU64 (a : F64) : ℕ :=
  if 0 ≤ a.e then min (a.m * 2 ^ a.e.toNat) (2 ^ 64 - 1)
  else min (a.m / 2 ^ (-a.e).toNat) (2 ^ 64 - 1)

/-- `AmmPool::calculate_tokens_for_lp_burn`: the proportional withdrawal
computed through `f64` exactly as in the source. -/
def AmmPool.calculate_tokens_for_lp_burn (p : AmmPool)
    (lp_tokens_to_burn : ℕ) : Except Failure (ℕ × ℕ) :=
  if lp_tokens_to_burn = 0 then .error (.amm .invalidAmount)
  else if lp_tokens_to_burn > p.total_lp_supply then
    .error (.amm .insufficientLPTokens)
  else
    let proportion :=
      f64Div (toF64 lp_tokens_to_burn) (toF64 p.total_lp_supply)
    let token_a_amount := f64ToU64 (f64Mul (toF64 p.token_a_reserve) proportion)
    let token_b_amount := f64ToU64 (f64Mul (toF64 p.token_b_reserve) proportion)
    .ok (token_a_amount, token_b_amount)

/-! ### Concrete states used by witnesses and counterexamples -/

/-- The pool of the spec's concrete swap scenario. -/
def scenarioPool : AmmPool :=
  { authority := 0, token_a_mint := 0, token_b_mint := 0, token_a_vault := 0,
    token_b_vault := 0, lp_mint := 0, total_lp_supply := 0,
    token_a_reserve := 1000000, token_b_reserve := 2000000, fee_rate := 30,
    min_liquidity := 1000, bump := 0, reserved := List.replicate 8 0 }

/-- A tiny pool with the default 30 bps fee. -/
def tinyPool : AmmPool :=
  { scenarioPool with token_a_reserve := 1, token_b_reserve := 2 }

/-- A pool with a 50 % fee rate (reachable via `update_config`). -/
def halfFeePool : AmmPool :=
  { scenarioPool with
    token_a_reserve := 1
    token_b_reserve := 10
    fee_rate := 5000 }

/-- A small pool used for the `update_swap_state` counterexample. -/
def smallPool : AmmPool :=
  { scenarioPool with token_a_reserve := 10, token_b_reserve := 5 }

/-- A funded pool used to exercise `remove_liquidity`. -/
def fundedPool : AmmPool :=
  { scenarioPool with
    total_lp_supply := 5
    token_a_reserve := 5
    token_b_reserve := 5 }

/-- `fundedPool` after removing one unit of everything. -/
def fundedPoolAfter : AmmPool :=
  { scenarioPool with
    total_lp_supply := 4
    token_a_reserve := 4
    token_b_reserve := 4 }

/-- A pool whose token-A reserve is `2^53 + 1`, with one LP token. -/
def bigReservePool : AmmPool :=
  { scenarioPool with
    total_lp_supply := 1
    token_a_reserve := 9007199254740993
    token_b_reserve := 0 }

/-- A pool with LP supply but an emptied token-A reserve. -/
def drainedPool : AmmPool :=
  { scenarioPool with
    total_lp_supply := 1
    token_a_reserve := 0
    token_b_reserve := 5 }

/-- A full whitelist with 32 pairwise distinct identifiers. -/
def fullWhitelist : TransferHookWhitelist :=
  { authority := 0
    hook_count := 32
    reserved := 0
    whitelisted_hooks := fun i => i.val + 1
    padding := List.replicate 8 0 }

/-- An active proposal just under the approval threshold. -/
def pendingProposal : HookProposal :=
  { proposer := 1, hook_program_id := 2, description := "d",
    audit_report_url := "u", proposer_stake := 10000000000,
    created_at := 0, voting_deadline := 604800,
    status := ProposalStatus.active, total_approve_stake := 99999999999,
    total_reject_stake := 7, votes := [] }

/-! ### Arithmetic facts about the binary64 rounding model -/

theorem log2Aux_spec : ∀ fuel n, 0 < n → n < 2 ^ fuel →
    2 ^ log2Aux fuel n ≤ n ∧ n < 2 ^ (log2Aux fuel n + 1) := by
  intro fuel
  induction fuel with
  | zero => intro n h0 h1; simp at h1; omega
  | succ fuel ih =>
    intro n h0 h1
    by_cases h2 : n < 2
    · simp [log2Aux, h2]; omega
    · simp only [log2Aux, h2, if_false]
      have hpow : (2:ℕ) ^ (fuel + 1) = 2 * 2 ^ fuel := by ring
      obtain ⟨hA, hB⟩ := ih (n / 2) (by omega) (by omega)
      set k := log2Aux fuel (n / 2) with hk
      have e1 : (2:ℕ) ^ (k + 1) = 2 * 2 ^ k := by ring
      have e2 : (2:ℕ) ^ (k + 1 + 1) = 4 * 2 ^ k := by ring
      omega

theorem floorLog2_eq (x E : ℕ) (hx : x < 2 ^ 4096) (h1 : 2 ^ E ≤ x)
    (h2 : x < 2 ^ (E + 1)) : floorLog2 x = E := by
  have h0 : 0 < x := lt_of_lt_of_le (Nat.pos_pow_of_pos E (by norm_num)) h1
  obtain ⟨hA, hB⟩ := log2Aux_spec 4096 x h0 hx
  have h3 : (2:ℕ) ^ floorLog2 x < 2 ^ (E + 1) := lt_of_le_of_lt hA h2
  have h4 : (2:ℕ) ^ E < 2 ^ (floorLog2 x + 1) := lt_of_le_of_lt h1 hB
  have h5 := (Nat.pow_lt_pow_iff_right (by norm_num : 1 < 2)).1 h3
  have h6 := (Nat.pow_lt_pow_iff_right (by norm_num : 1 < 2)).1 h4
  omega

theorem roundHalfEven_exact (N D : ℕ) (hD : 0 < D) (h : N % D = 0) :
    roundHalfEven N D = N / D := by
  unfold roundHalfEven
  rw [h]
  simp [hD]

theorem rexp_self (m : ℕ) : rexp m m = 0 := by
  unfold rexp
  rw [if_pos (le_refl _)]
  omega

theorem rnd_self (m : ℕ) (hm : 0 < m) : rnd m m = ⟨2 ^ 52, -52⟩ := by
  unfold rnd
  rw [if_neg (by omega : ¬ (m = 0 ∨ m = 0)), rexp_self]
  have e1 : ((52:ℤ) - 0).toNat = 52 := by omega
  have e2 : ((0:ℤ) - 52).toNat = 0 := by omega
  rw [e1, e2]
  have e3 : m * 2 ^ 0 = m := by ring
  rw [e3]
  rw [roundHalfEven_exact _ _ hm (Nat.mul_mod_right m _)]
  rw [Nat.mul_div_cancel_left _ hm]
  norm_num

theorem floorLog2_one : floorLog2 1 = 0 := by decide

theorem floorLog2_pow (t : ℕ) (ht : t ≤ 120) : floorLog2 (2 ^ t) = t := by
  apply floorLog2_eq
  · have h1 : (2:ℕ) ^ t < 2 ^ 121 :=
      Nat.pow_lt_pow_right (by norm_num) (by omega)
    have h2 : (2:ℕ) ^ 121 ≤ 2 ^ 4096 :=
      Nat.pow_le_pow_right (by norm_num) (by norm_num)
    omega
  · exact le_refl _
  · exact Nat.pow_lt_pow_right (by norm_num) (by omega)

theorem toF64_small (r : ℕ) (h0 : 0 < r) (h1 : r < 2 ^ 53) :
    toF64 r = ⟨r * 2 ^ (52 - floorLog2 r), (floorLog2 r : ℤ) - 52⟩ ∧
    2 ^ floorLog2 r ≤ r ∧ r < 2 ^ (floorLog2 r + 1) ∧ floorLog2 r ≤ 52 := by
  obtain ⟨hA, hB⟩ := log2Aux_spec 4096 r h0
    (lt_trans h1 (Nat.pow_lt_pow_right (by norm_num) (by norm_num)))
  have hA' : 2 ^ floorLog2 r ≤ r := hA
  have hB' : r < 2 ^ (floorLog2 r + 1) := hB
  set L := floorLog2 r with hLdef
  have hL52 : L ≤ 52 := by
    by_contra hc
    push_neg at hc
    have : (2:ℕ) ^ 53 ≤ 2 ^ L := Nat.pow_le_pow_right (by norm_num) (by omega)
    omega
  refine ⟨?_, hA', hB', hL52⟩
  have hrexp : rexp r 1 = (L : ℤ) := by
    unfold rexp
    rw [floorLog2_one, ← hLdef]
    rw [if_pos (by simpa using hA')]
    simp
  unfold toF64 rnd
  rw [if_neg (by omega : ¬ (r = 0 ∨ (1:ℕ) = 0)), hrexp]
  have e1 : ((52:ℤ) - L).toNat = 52 - L := by omega
  have e2 : (((L:ℤ)) - 52).toNat = 0 := by omega
  rw [e1, e2]
  have e3 : (1:ℕ) * 2 ^ 0 = 1 := by norm_num
  rw [e3]
  rw [roundHalfEven_exact _ _ one_pos (Nat.mod_one _), Nat.div_one]

theorem toF64_top : toF64 (2 ^ 53) = ⟨2 ^ 52, 1⟩ := by decide

theorem toF64_normal (r : ℕ) (h0 : 0 < r) (h1 : r ≤ 2 ^ 53) :
    2 ^ 52 ≤ (toF64 r).m ∧ (toF64 r).m < 2 ^ 53 ∧
    -52 ≤ (toF64 r).e ∧ (toF64 r).e ≤ 1 ∧ f64ToU64 (toF64 r) = r := by
  rcases eq_or_lt_of_le h1 with he | hlt
  · rw [he, toF64_top]
    refine ⟨by norm_num, by norm_num, by norm_num, by norm_num, by decide⟩
  · obtain ⟨heq, hA, hB, hL⟩ := toF64_small r h0 hlt
    rw [heq]
    set L := floorLog2 r
    have hm1 : (2:ℕ) ^ 52 ≤ r * 2 ^ (52 - L) := by
      calc (2:ℕ) ^ 52 = 2 ^ L * 2 ^ (52 - L) := by
            rw [← pow_add]; congr 1; omega
        _ ≤ r * 2 ^ (52 - L) := Nat.mul_le_mul_right _ hA
    have hm2 : r * 2 ^ (52 - L) < 2 ^ 53 := by
      calc r * 2 ^ (52 - L) < 2 ^ (L + 1) * 2 ^ (52 - L) :=
            (Nat.mul_lt_mul_right (Nat.pos_pow_of_pos _ (by norm_num))).2 hB
        _ = 2 ^ 53 := by rw [← pow_add]; congr 1; omega
    refine ⟨hm1, hm2, by show -52 ≤ (L:ℤ) - 52; omega,
      by show (L:ℤ) - 52 ≤ 1; omega, ?_⟩
    unfold f64ToU64
    simp only
    by_cases hL52 : L = 52
    · rw [if_pos (by simp [hL52])]
      have e : ((L:ℤ) - 52).toNat = 0 := by omega
      rw [e, hL52]
      norm_num
      omega
    · rw [if_neg (by omega : ¬ (0:ℤ) ≤ (L:ℤ) - 52)]
      have e : (-((L:ℤ) - 52)).toNat = 52 - L := by omega
      rw [e]
      rw [Nat.mul_div_cancel _ (Nat.pos_pow_of_pos _ (by norm_num))]
      have : r ≤ 2 ^ 64 - 1 := by
        have : (2:ℕ) ^ 53 ≤ 2 ^ 64 := Nat.pow_le_pow_right (by norm_num) (by norm_num)
        omega
      omega

theorem f64Div_self (a : F64) (h : 0 < a.m) : f64Div a a = ⟨2 ^ 52, -52⟩ := by
  unfold f64Div
  rw [if_pos (by omega : (0:ℤ) ≤ a.e - a.e)]
  have e : (a.e - a.e).toNat = 0 := by omega
  rw [e, pow_zero, mul_one]
  exact rnd_self a.m h

theorem f64Mul_one (a : F64) (h1 : 2 ^ 52 ≤ a.m) (h2 : a.m < 2 ^ 53)
    (h3 : -52 ≤ a.e) (h4 : a.e ≤ 1) : f64Mul a ⟨2 ^ 52, -52⟩ = a := by
  obtain ⟨am, ae⟩ := a
  simp only at h1 h2 h3 h4
  unfold f64Mul
  simp only
  rw [if_neg (by omega : ¬ (0:ℤ) ≤ ae + -52)]
  set kt := (-(ae + (-52:ℤ))).toNat with hktdef
  have hkt : (kt : ℤ) = 52 - ae := by omega
  have hkt1 : 51 ≤ kt := by omega
  have hkt2 : kt ≤ 104 := by omega
  have hlogn : floorLog2 (am * 2 ^ 52) = 104 := by
    apply floorLog2_eq
    · have hu : am * 2 ^ 52 < 2 ^ 53 * 2 ^ 52 :=
        (Nat.mul_lt_mul_right (Nat.pos_pow_of_pos _ (by norm_num))).2 h2
      have he : (2:ℕ) ^ 53 * 2 ^ 52 = 2 ^ 105 := by rw [← pow_add]
      have hb : (2:ℕ) ^ 105 < 2 ^ 4096 :=
        Nat.pow_lt_pow_right (by norm_num) (by norm_num)
      omega
    · calc (2:ℕ) ^ 104 = 2 ^ 52 * 2 ^ 52 := by rw [← pow_add]
        _ ≤ am * 2 ^ 52 := Nat.mul_le_mul_right _ h1
    · calc am * 2 ^ 52 < 2 ^ 53 * 2 ^ 52 :=
          (Nat.mul_lt_mul_right (Nat.pos_pow_of_pos _ (by norm_num))).2 h2
        _ = 2 ^ (104 + 1) := by rw [← pow_add]
  have hrexp : rexp (am * 2 ^ 52) (2 ^ kt) = (104 : ℤ) - kt := by
    unfold rexp
    rw [hlogn, floorLog2_pow kt (by omega)]
    rw [if_pos (by
      rw [mul_comm ((2:ℕ) ^ kt) _]
      apply Nat.mul_le_mul_right
      calc (2:ℕ) ^ 104 = 2 ^ 52 * 2 ^ 52 := by rw [← pow_add]
        _ ≤ am * 2 ^ 52 := Nat.mul_le_mul_right _ h1)]
    push_cast
    ring
  unfold rnd
  rw [if_neg (by
    have h5 : 0 < (2:ℕ) ^ kt := Nat.pos_pow_of_pos _ (by norm_num)
    omega)]
  rw [hrexp]
  by_cases hs : 52 ≤ kt
  · have e1 : ((52:ℤ) - (104 - kt)).toNat = kt - 52 := by omega
    have e2 : (((104:ℤ) - kt) - 52).toNat = 0 := by omega
    rw [e1, e2]
    have eN : am * 2 ^ 52 * 2 ^ (kt - 52) = am * 2 ^ kt := by
      rw [mul_assoc, ← pow_add]; congr 2; omega
    have eD : (2:ℕ) ^ kt * 2 ^ 0 = 2 ^ kt := by rw [pow_zero, mul_one]
    rw [eN, eD]
    rw [roundHalfEven_exact _ _ (Nat.pos_pow_of_pos _ (by norm_num))
      (Nat.mul_mod_left _ _)]
    rw [Nat.mul_div_cancel _ (Nat.pos_pow_of_pos _ (by norm_num))]
    have : ((104:ℤ) - kt) - 52 = ae := by omega
    rw [this]
  · have e1 : ((52:ℤ) - (104 - kt)).toNat = 0 := by omega
    have e2 : (((104:ℤ) - kt) - 52).toNat = 52 - kt := by omega
    rw [e1, e2]
    have eN : am * 2 ^ 52 * 2 ^ 0 = am * 2 ^ 52 := by rw [pow_zero, mul_one]
    have eD : (2:ℕ) ^ kt * 2 ^ (52 - kt) = 2 ^ 52 := by
      rw [← pow_add]; congr 1; omega
    rw [eN, eD]
    rw [roundHalfEven_exact _ _ (Nat.pos_pow_of_pos _ (by norm_num))
      (Nat.mul_mod_left _ _)]
    rw [Nat.mul_div_cancel _ (Nat.pos_pow_of_pos _ (by norm_num))]
    have : ((104:ℤ) - kt) - 52 = ae := by omega
    rw [this]

/-! ### The wrapped swap arithmetic versus exact integer arithmetic -/

theorem afterFee_eq (f x : ℕ) (hf : f ≤ 10000) :
    afterFee f x = (x * (10000 - f) + 9999) / 10000 := by
  unfold afterFee
  have hsplit : x * 10000 = x * (10000 - f) + x * f := by
    rw [← Nat.mul_add]
    congr 1
    omega
  omega

theorem afterFee_mono (f x₁ x₂ : ℕ) (hf : f ≤ 10000) (h : x₁ ≤ x₂) :
    afterFee f x₁ ≤ afterFee f x₂ := by
  rw [afterFee_eq f x₁ hf, afterFee_eq f x₂ hf]
  exact Nat.div_le_div_right
    (Nat.add_le_add_right (Nat.mul_le_mul_right _ h) _)

theorem div_out_mono (Y X a₁ a₂ : ℕ) (hX : 0 < X) (h : a₁ ≤ a₂) :
    Y * a₁ / (X + a₁) ≤ Y * a₂ / (X + a₂) := by
  have hd : Y * a₁ / (X + a₁) * (X + a₁) ≤ Y * a₁ := Nat.div_mul_le_self _ _
  have hdY : Y * a₁ / (X + a₁) ≤ Y := by
    rcases Nat.eq_zero_or_pos a₁ with h0 | h0
    · simp [h0]
    · calc Y * a₁ / (X + a₁) ≤ Y * a₁ / a₁ :=
          Nat.div_le_div_left (by omega) h0
        _ = Y := by rw [Nat.mul_div_assoc Y (dvd_refl a₁), Nat.div_self h0,
          mul_one]
  rw [Nat.le_div_iff_mul_le (by omega : 0 < X + a₂)]
  calc Y * a₁ / (X + a₁) * (X + a₂)
      = Y * a₁ / (X + a₁) * (X + a₁) + Y * a₁ / (X + a₁) * (a₂ - a₁) := by
        rw [← Nat.mul_add]
        congr 1
        omega
    _ ≤ Y * a₁ + Y * (a₂ - a₁) :=
        Nat.add_le_add hd (Nat.mul_le_mul hdY (le_refl _))
    _ = Y * a₂ := by
        rw [← Nat.mul_add]
        congr 1
        omega

theorem calculate_swap_output_eq_spec (p : AmmPool) (x : ℕ)
    (h : swapArithmeticInU64 p x) :
    p.calculate_swap_output x =
      liftAmm (specSwapOutput p.token_a_reserve p.token_b_reserve
        p.fee_rate x) := by
  obtain ⟨hx64, hfee, hmul1, hmul2, hadd⟩ := h
  unfold afterFee at hmul2 hadd
  by_cases hx0 : x = 0
  · simp [AmmPool.calculate_swap_output, specSwapOutput, hx0, liftAmm]
  by_cases hra : p.token_a_reserve = 0
  · simp [AmmPool.calculate_swap_output, specSwapOutput, hx0, hra, liftAmm]
  by_cases hrb : p.token_b_reserve = 0
  · simp [AmmPool.calculate_swap_output, specSwapOutput, hx0, hra, hrb,
      liftAmm]
  have e1 : mul64 x p.fee_rate = x * p.fee_rate := Nat.mod_eq_of_lt hmul1
  have hfle : x * p.fee_rate / 10000 ≤ x := by
    have h' : x * p.fee_rate ≤ x * 10000 := Nat.mul_le_mul_left _ hfee
    omega
  have e2 : sub64 x (x * p.fee_rate / 10000) =
      x - x * p.fee_rate / 10000 := by
    unfold sub64
    omega
  have e3 : add64 p.token_a_reserve (x - x * p.fee_rate / 10000) =
      p.token_a_reserve + (x - x * p.fee_rate / 10000) :=
    Nat.mod_eq_of_lt hadd
  have e4 : mul64 p.token_b_reserve (x - x * p.fee_rate / 10000) =
      p.token_b_reserve * (x - x * p.fee_rate / 10000) :=
    Nat.mod_eq_of_lt hmul2
  have hden : ¬ p.token_a_reserve + (x - x * p.fee_rate / 10000) = 0 := by
    omega
  unfold AmmPool.calculate_swap_output specSwapOutput
  rw [if_neg hx0, if_neg hra, if_neg hrb,
    if_neg (by tauto : ¬ (p.token_a_reserve = 0 ∨ p.token_b_reserve = 0))]
  simp only [e1, e2, e3, e4]
  rw [if_neg hden]
  split_ifs <;> simp [liftAmm]

theorem specSwapOutput_ok_elim (X Y f x v : ℕ)
    (h : specSwapOutput X Y f x = .ok v) :
    0 < X ∧ v = Y * afterFee f x / (X + afterFee f x) ∧ v < Y := by
  unfold specSwapOutput at h
  simp only [ge_iff_le] at h
  unfold afterFee
  split_ifs at h with h1 h2 h3 h4
  all_goals first
  | exact Except.noConfusion h
  | (rw [Except.ok.injEq] at h
     push_neg at h2
     subst h
     exact ⟨by omega, rfl, by omega⟩)

theorem swapArith_mono (p : AmmPool) (x₁ x₂ : ℕ) (h : x₁ ≤ x₂)
    (hs : swapArithmeticInU64 p x₂) : swapArithmeticInU64 p x₁ := by
  obtain ⟨hx64, hfee, hmul1, hmul2, hadd⟩ := hs
  have haf := afterFee_mono p.fee_rate x₁ x₂ hfee h
  refine ⟨by omega, hfee, ?_, ?_, ?_⟩
  · have := Nat.mul_le_mul_right p.fee_rate h
    omega
  · have := Nat.mul_le_mul_left p.token_b_reserve haf
    omega
  · omega

/-! ### Whitelist set semantics -/

namespace TransferHookWhitelist

theorem not_mem_of_false (w : TransferHookWhitelist) (pid : ℕ)
    (h : w.is_hook_whitelisted pid = false) :
    ∀ i : Fin 32, i.val < w.hook_count → w.whitelisted_hooks i ≠ pid := by
  intro i hi
  unfold is_hook_whitelisted at h
  simp only [decide_eq_false_iff_not] at h
  push_neg at h
  exact h i hi

theorem add_hook_ok_inv (w : TransferHookWhitelist) (pid : ℕ)
    (w' : TransferHookWhitelist) (hInv : w.Inv)
    (h : w.add_hook pid = .ok w') : w'.Inv := by
  unfold add_hook at h
  split_ifs at h with hfull hmem
  rw [Except.ok.injEq] at h
  subst h
  obtain ⟨hc, hd⟩ := hInv
  have hnm := not_mem_of_false w pid (by simpa using hmem)
  refine ⟨by show w.hook_count + 1 ≤ 32; omega, ?_⟩
  intro i j hi hj hij
  have hi' : i.val < w.hook_count + 1 := hi
  have hj' : j.val < w.hook_count + 1 := hj
  show (if i.val = w.hook_count then pid else w.whitelisted_hooks i) ≠
    (if j.val = w.hook_count then pid else w.whitelisted_hooks j)
  by_cases hieq : i.val = w.hook_count
  · rw [if_pos hieq]
    have hjne : j.val ≠ w.hook_count := by
      intro hjeq
      exact hij (Fin.ext (by omega))
    rw [if_neg hjne]
    exact fun hh => hnm j (by omega) hh.symm
  · rw [if_neg hieq]
    by_cases hjeq : j.val = w.hook_count
    · rw [if_pos hjeq]
      exact hnm i (by omega)
    · rw [if_neg hjeq]
      exact hd i j (by omega) (by omega) hij

theorem remove_hook_absent (w : TransferHookWhitelist) (pid : ℕ)
    (h : w.is_hook_whitelisted pid = false) :
    w.remove_hook pid = .error .hookNotWhitelisted := by
  unfold remove_hook
  have hnone : (List.finRange 32).find? (fun i =>
      decide (i.val < w.hook_count ∧ w.whitelisted_hooks i = pid)) = none := by
    rw [List.find?_eq_none]
    intro i _
    simp only [decide_eq_true_eq]
    rintro ⟨h1, h2⟩
    exact not_mem_of_false w pid h i h1 h2
  rw [hnone]

theorem remove_hook_ok_inv (w : TransferHookWhitelist) (pid : ℕ)
    (w' : TransferHookWhitelist) (hInv : w.Inv)
    (h : w.remove_hook pid = .ok w') : w'.Inv := by
  unfold remove_hook at h
  rcases hfind : (List.finRange 32).find? (fun i =>
      decide (i.val < w.hook_count ∧ w.whitelisted_hooks i = pid)) with
    _ | i
  · rw [hfind] at h
    exact Except.noConfusion h
  · rw [hfind] at h
    rw [Except.ok.injEq] at h
    subst h
    have hip := List.find?_some hfind
    simp only [decide_eq_true_eq] at hip
    obtain ⟨hic, -⟩ := hip
    obtain ⟨hc, hd⟩ := hInv
    refine ⟨by show w.hook_count - 1 ≤ 32; omega, ?_⟩
    intro j k hj hk hjk
    have hj' : j.val < w.hook_count - 1 := hj
    have hk' : k.val < w.hook_count - 1 := hk
    show (if j.val < i.val then w.whitelisted_hooks j
      else if h : j.val + 1 < w.hook_count ∧ j.val + 1 < 32 then
        w.whitelisted_hooks ⟨j.val + 1, h.2⟩
      else if j.val + 1 = w.hook_count then 0
      else w.whitelisted_hooks j) ≠
      (if k.val < i.val then w.whitelisted_hooks k
      else if h : k.val + 1 < w.hook_count ∧ k.val + 1 < 32 then
        w.whitelisted_hooks ⟨k.val + 1, h.2⟩
      else if k.val + 1 = w.hook_count then 0
      else w.whitelisted_hooks k)
    by_cases hji : j.val < i.val <;> by_cases hki : k.val < i.val
    · rw [if_pos hji, if_pos hki]
      exact hd j k (by omega) (by omega) hjk
    · rw [if_pos hji, if_neg hki,
        dif_pos (⟨by omega, by omega⟩ : k.val + 1 < w.hook_count ∧
          k.val + 1 < 32)]
      exact hd j ⟨k.val + 1, by omega⟩ (by omega)
        (by show k.val + 1 < w.hook_count; omega)
        (Fin.ne_of_val_ne (by show j.val ≠ k.val + 1; omega))
    · rw [if_neg hji, if_pos hki,
        dif_pos (⟨by omega, by omega⟩ : j.val + 1 < w.hook_count ∧
          j.val + 1 < 32)]
      exact hd ⟨j.val + 1, by omega⟩ k
        (by show j.val + 1 < w.hook_count; omega) (by omega)
        (Fin.ne_of_val_ne (by show j.val + 1 ≠ k.val; omega))
    · rw [if_neg hji, if_neg hki,
        dif_pos (⟨by omega, by omega⟩ : j.val + 1 < w.hook_count ∧
          j.val + 1 < 32),
        dif_pos (⟨by omega, by omega⟩ : k.val + 1 < w.hook_count ∧
          k.val + 1 < 32)]
      have hvne : j.val ≠ k.val := fun hv => hjk (Fin.ext hv)
      exact hd ⟨j.val + 1, by omega⟩ ⟨k.val + 1, by omega⟩
        (by show j.val + 1 < w.hook_count; omega)
        (by show k.val + 1 < w.hook_count; omega)
        (Fin.ne_of_val_ne (by show j.val + 1 ≠ k.val + 1; omega))

end TransferHookWhitelist

theorem liftAmm_ok {α : Type} (e : Except AmmError α) (v : α) :
    liftAmm e = .ok v ↔ e = .ok v := by
  cases e <;> simp [liftAmm]

/-! ### Claims -/

/-- C1 (amended): whenever the fee rate is in basis-point range and none
of the swap's u64 products and sums reaches `2^64`,
`calculate_swap_output` computes exactly the specification's formulas —
`feeAmount = ⌊amountIn·feeRateBps/10000⌋`,
`amountInAfterFee = amountIn - feeAmount`,
`amountOut = ⌊reserveOut·amountInAfterFee/(reserveIn+amountInAfterFee)⌋` —
with the stated error cases, in the stated order.  Without those bounds
the wrapped u64 arithmetic diverges from the formulas (see the
counterexample). -/
theorem C1_swap_quote_exact (p : AmmPool) (x : ℕ)
    (h : swapArithmeticInU64 p x) :
    p.calculate_swap_output x =
      liftAmm (specSwapOutput p.token_a_reserve p.token_b_reserve
        p.fee_rate x) :=
  calculate_swap_output_eq_spec p x h

theorem C1_witness :
    swapArithmeticInU64 scenarioPool 10000 ∧
    scenarioPool.calculate_swap_output 10000 =
      liftAmm (specSwapOutput 1000000 2000000 30 10000) :=
  ⟨by decide, C1_swap_quote_exact scenarioPool 10000 (by decide)⟩

theorem C1_counterexample :
    tinyPool.calculate_swap_output (2 ^ 63) =
      .error (.amm .insufficientOutputAmount) ∧
    specSwapOutput tinyPool.token_a_reserve tinyPool.token_b_reserve
      tinyPool.fee_rate (2 ^ 63) = .ok 1 ∧
    tinyPool.calculate_swap_output (2 ^ 63) ≠
      liftAmm (specSwapOutput tinyPool.token_a_reserve
        tinyPool.token_b_reserve tinyPool.fee_rate (2 ^ 63)) := by
  refine ⟨by decide, by decide, ?_⟩
  decide

/-- C2 (amended): on the spec's concrete scenario (reserves
1 000 000 / 2 000 000, fee 30 bps, input 10 000) the quote succeeds with
`feeAmount = 30` and `amountInAfterFee = 9970`, but the output is
`⌊2 000 000·9970/1 009 970⌋ = 19743`, not the spec's 19742. -/
theorem C2_scenario : scenarioPool.calculate_swap_output 10000 = .ok 19743 ∧
    mul64 10000 scenarioPool.fee_rate / 10000 = 30 ∧
    sub64 10000 30 = 9970 := by
  decide

theorem C2_counterexample :
    scenarioPool.calculate_swap_output 10000 ≠ .ok 19742 ∧
    2000000 * 9970 / 1009970 = 19743 := by
  decide

/-- C3 (amended): when `update_swap_state` fails with
`InsufficientLiquidity`, the output reserve and the LP supply are
untouched, but the input reserve has already been incremented (mod
`2^64`) by `amountIn` — the function is not atomic on its own; the
all-or-nothing behaviour of the enclosing transaction is provided by the
host runtime discarding account state on error, not by this code. -/
theorem C3_failure_keeps_output_reserve (p : AmmPool) (a o : ℕ)
    (h : (p.update_swap_state a o).1 = .error (.amm .insufficientLiquidity)) :
    (p.update_swap_state a o).2.token_b_reserve = p.token_b_reserve ∧
    (p.update_swap_state a o).2.token_a_reserve = add64 p.token_a_reserve a ∧
    (p.update_swap_state a o).2.total_lp_supply = p.total_lp_supply := by
  unfold AmmPool.update_swap_state at h ⊢
  dsimp only at h ⊢
  split_ifs at h ⊢ with hc
  exact ⟨rfl, rfl, rfl⟩

theorem C3_witness :
    (smallPool.update_swap_state 7 6).2.token_b_reserve =
      smallPool.token_b_reserve ∧
    (smallPool.update_swap_state 7 6).2.token_a_reserve =
      add64 smallPool.token_a_reserve 7 ∧
    (smallPool.update_swap_state 7 6).2.total_lp_supply =
      smallPool.total_lp_supply :=
  C3_failure_keeps_output_reserve smallPool 7 6 (by decide)

theorem C3_counterexample :
    (smallPool.update_swap_state 7 6).1 =
      .error (.amm .insufficientLiquidity) ∧
    (smallPool.update_swap_state 7 6).2.token_a_reserve = 17 ∧
    smallPool.token_a_reserve = 10 := by
  decide

/-- C4 (amended): `fee_rate ≤ 10000` holds after `initialize` (which
sets 30) and is preserved by every pool operation that does not touch the
fee — swap-state updates, liquidity adds and removes — but
`update_config` stores an arbitrary u64 fee rate with no range check, so
the invariant survives `update_config` only when its argument is at most
10000. -/
theorem C4_fee_rate_invariant :
    (∀ a₁ a₂ a₃ a₄ a₅ a₆ : ℕ,
      (AmmPool.init a₁ a₂ a₃ a₄ a₅ a₆).fee_rate = 30) ∧
    (∀ (p : AmmPool) (x y : ℕ),
      ((p.update_swap_state x y).2).fee_rate = p.fee_rate) ∧
    (∀ (p : AmmPool) (x y z : ℕ),
      (p.add_liquidity x y z).fee_rate = p.fee_rate) ∧
    (∀ (p : AmmPool) (x y z : ℕ) (q : AmmPool),
      p.remove_liquidity x y z = .ok q → q.fee_rate = p.fee_rate) ∧
    (∀ (p : AmmPool) (f m : ℕ), (p.update_config f m).fee_rate = f) := by
  refine ⟨fun _ _ _ _ _ _ => rfl, ?_, fun _ _ _ _ => rfl, ?_, fun _ _ _ => rfl⟩
  · intro p x y
    unfold AmmPool.update_swap_state
    dsimp only
    split_ifs <;> rfl
  · intro p x y z q h
    unfold AmmPool.remove_liquidity at h
    split_ifs at h
    rw [Except.ok.injEq] at h
    subst h
    rfl

theorem C4_witness : fundedPoolAfter.fee_rate = fundedPool.fee_rate :=
  C4_fee_rate_invariant.2.2.2.1 fundedPool 1 1 1 fundedPoolAfter (by decide)

theorem C4_counterexample :
    scenarioPool.fee_rate ≤ 10000 ∧
    (scenarioPool.update_config 10001 500).fee_rate = 10001 ∧
    ¬ (scenarioPool.update_config 10001 500).fee_rate ≤ 10000 := by
  decide

/-- C5 (amended): `calculate_tokens_for_lp_burn` enforces
`0 < lpTokensToBurn ≤ total_lp_supply` but computes the proportional
amounts through `f64`, not exact rational arithmetic; the result agrees
with the exact floors on a full burn whenever the supply and both
reserves are at most `2^53` (the range in which every step of the float
computation is exact), and can differ beyond that (see the
counterexample at reserve `2^53 + 1`). -/
theorem C5_full_burn_exact (p : AmmPool) (h0 : 0 < p.total_lp_supply)
    (h1 : p.total_lp_supply ≤ 2 ^ 53) (ha : p.token_a_reserve ≤ 2 ^ 53)
    (hb : p.token_b_reserve ≤ 2 ^ 53) :
    p.calculate_tokens_for_lp_burn p.total_lp_supply =
      .ok (p.token_a_reserve * p.total_lp_supply / p.total_lp_supply,
        p.token_b_reserve * p.total_lp_supply / p.total_lp_supply) := by
  unfold AmmPool.calculate_tokens_for_lp_burn
  rw [if_neg (by omega), if_neg (by omega :
    ¬ p.total_lp_supply > p.total_lp_supply)]
  have hsup := toF64_normal p.total_lp_supply h0 h1
  have hprop : f64Div (toF64 p.total_lp_supply) (toF64 p.total_lp_supply) =
      ⟨2 ^ 52, -52⟩ :=
    f64Div_self _ (lt_of_lt_of_le (by norm_num) hsup.1)
  rw [hprop]
  dsimp only
  have hres : ∀ r : ℕ, r ≤ 2 ^ 53 →
      f64ToU64 (f64Mul (toF64 r) ⟨2 ^ 52, -52⟩) = r := by
    intro r hr
    rcases Nat.eq_zero_or_pos r with h0r | h0r
    · subst h0r
      decide
    · obtain ⟨hm1, hm2, he1, he2, hval⟩ := toF64_normal r h0r hr
      rw [f64Mul_one (toF64 r) hm1 hm2 he1 he2, hval]
  rw [hres _ ha, hres _ hb]
  have hcancel : ∀ r : ℕ, r * p.total_lp_supply / p.total_lp_supply = r :=
    fun r => by
      rw [Nat.mul_div_assoc r (dvd_refl _), Nat.div_self h0, mul_one]
  rw [hcancel, hcancel]

theorem C5_witness :
    fundedPool.calculate_tokens_for_lp_burn 5 = .ok (5, 5) :=
  C5_full_burn_exact fundedPool (by decide) (by decide) (by decide)
    (by decide)

theorem C5_counterexample :
    bigReservePool.calculate_tokens_for_lp_burn 1 =
      .ok (9007199254740992, 0) ∧
    bigReservePool.token_a_reserve * 1 / bigReservePool.total_lp_supply =
      9007199254740993 ∧
    (9007199254740992 : ℕ) ≠ 9007199254740993 := by
  refine ⟨by decide, by decide, by decide⟩

/-- C6 (amended): for every pool, every successful
`calculate_swap_output` returns strictly less than the output reserve;
and for a fixed pool with basis-point fee and inputs whose swap
arithmetic stays inside u64, the quote is monotone *non-decreasing* in
`amountIn`.  It is not strictly increasing: two different inputs can
produce the same output (see the counterexample). -/
theorem C6_swap_monotone :
    (∀ (p : AmmPool) (x v : ℕ),
      p.calculate_swap_output x = .ok v → v < p.token_b_reserve) ∧
    (∀ (p : AmmPool) (x₁ x₂ v₁ v₂ : ℕ), swapArithmeticInU64 p x₂ →
      x₁ ≤ x₂ → p.calculate_swap_output x₁ = .ok v₁ →
      p.calculate_swap_output x₂ = .ok v₂ → v₁ ≤ v₂) := by
  constructor
  · intro p x v h
    unfold AmmPool.calculate_swap_output at h
    dsimp only at h
    split_ifs at h with h1 h2 h3 h4 h5 h6
    rw [Except.ok.injEq] at h
    omega
  · intro p x₁ x₂ v₁ v₂ hs2 hle h1 h2
    have hs1 := swapArith_mono p x₁ x₂ hle hs2
    rw [calculate_swap_output_eq_spec p x₁ hs1, liftAmm_ok] at h1
    rw [calculate_swap_output_eq_spec p x₂ hs2, liftAmm_ok] at h2
    obtain ⟨hX, hv1, -⟩ := specSwapOutput_ok_elim _ _ _ _ _ h1
    obtain ⟨-, hv2, -⟩ := specSwapOutput_ok_elim _ _ _ _ _ h2
    rw [hv1, hv2]
    exact div_out_mono _ _ _ _ hX
      (afterFee_mono p.fee_rate x₁ x₂ hs2.2.1 hle)

theorem C6_witness :
    swapArithmeticInU64 scenarioPool 20000 ∧
    scenarioPool.calculate_swap_output 10000 = .ok 19743 ∧
    scenarioPool.calculate_swap_output 20000 = .ok 39100 ∧
    (19743 : ℕ) ≤ 39100 :=
  ⟨by decide, by decide, by decide,
    C6_swap_monotone.2 scenarioPool 10000 20000 19743 39100 (by decide)
      (by decide) (by decide) (by decide)⟩

theorem C6_counterexample :
    halfFeePool.calculate_swap_output 1 = .ok 5 ∧
    halfFeePool.calculate_swap_output 2 = .ok 5 ∧
    (1 : ℕ) < 2 ∧ ¬ (5 : ℕ) < 5 := by
  decide

/-- C7 (amended): the pool's u64 arithmetic is not unconditionally
overflow-free — with positive reserves and fee 30 the product
`amount_in * fee_rate` already exceeds `2^64` at `amount_in = 2^63` —
but whenever the explicit bounds hold (each product and sum below
`2^64`), the wrapped operations coincide with exact unbounded integer
arithmetic: the swap quote equals the specification formulas and
`add_liquidity` adds exactly. -/
theorem C7_overflow_bounds :
    (∀ (p : AmmPool) (x : ℕ), swapArithmeticInU64 p x →
      p.calculate_swap_output x =
        liftAmm (specSwapOutput p.token_a_reserve p.token_b_reserve
          p.fee_rate x)) ∧
    (∀ (p : AmmPool) (a b lp : ℕ),
      p.token_a_reserve + a < 2 ^ 64 → p.token_b_reserve + b < 2 ^ 64 →
      p.total_lp_supply + lp < 2 ^ 64 →
      p.add_liquidity a b lp =
        { p with
          token_a_reserve := p.token_a_reserve + a
          token_b_reserve := p.token_b_reserve + b
          total_lp_supply := p.total_lp_supply + lp }) ∧
    (∀ a b : ℕ, a * b < 2 ^ 64 → mul64 a b = a * b) := by
  refine ⟨calculate_swap_output_eq_spec, ?_, fun a b h => Nat.mod_eq_of_lt h⟩
  intro p a b lp h1 h2 h3
  unfold AmmPool.add_liquidity add64
  rw [Nat.mod_eq_of_lt h1, Nat.mod_eq_of_lt h2, Nat.mod_eq_of_lt h3]

theorem C7_witness :
    scenarioPool.add_liquidity 100 200 50 =
      { scenarioPool with
        token_a_reserve := 1000100
        token_b_reserve := 2000200
        total_lp_supply := 50 } :=
  C7_overflow_bounds.2.1 scenarioPool 100 200 50 (by decide) (by decide)
    (by decide)

theorem C7_counterexample :
    0 < tinyPool.token_a_reserve ∧ 0 < tinyPool.token_b_reserve ∧
    0 < (2 ^ 63 : ℕ) ∧ (2 ^ 63 : ℕ) < 2 ^ 64 ∧
    ¬ swapArithmeticInU64 tinyPool (2 ^ 63) ∧
    2 ^ 64 ≤ 2 ^ 63 * tinyPool.fee_rate := by
  refine ⟨by decide, by decide, by decide, by decide, ?_, by decide⟩
  intro h
  exact absurd h.2.2.1 (by decide)

/-- C8 (confirmed): the whitelist invariant — `hook_count ≤ 32` and no
duplicate identifiers among the first `hook_count` slots — holds after
`initialize` and is preserved by both mutators: `add_hook` fails with
`WhitelistFull` at `hook_count = 32` and with `HookAlreadyWhitelisted`
when the identifier is already present, `remove_hook` fails with
`HookNotWhitelisted` when it is absent, and every success path
re-establishes the invariant. -/
theorem C8_whitelist_invariant :
    (∀ auth : ℕ, (TransferHookWhitelist.init auth).Inv) ∧
    (∀ (w : TransferHookWhitelist) (pid : ℕ), w.Inv →
      (w.hook_count = 32 → w.add_hook pid = .error .whitelistFull) ∧
      (w.hook_count < 32 → w.is_hook_whitelisted pid = true →
        w.add_hook pid = .error .hookAlreadyWhitelisted) ∧
      (∀ w' : TransferHookWhitelist, w.add_hook pid = .ok w' → w'.Inv) ∧
      (w.is_hook_whitelisted pid = false →
        w.remove_hook pid = .error .hookNotWhitelisted) ∧
      (∀ w' : TransferHookWhitelist, w.remove_hook pid = .ok w' →
        w'.Inv)) := by
  constructor
  · intro auth
    constructor
    · show (0:ℕ) ≤ 32
      norm_num
    · intro i j hi hj hij
      have hi0 : i.val < 0 := hi
      omega
  · intro w pid hInv
    refine ⟨?_, ?_, ?_, ?_, ?_⟩
    · intro h32
      unfold TransferHookWhitelist.add_hook
      rw [if_pos (by omega)]
    · intro hlt hmem
      unfold TransferHookWhitelist.add_hook
      rw [if_neg (by omega), if_pos hmem]
    · exact fun w' h => TransferHookWhitelist.add_hook_ok_inv w pid w' hInv h
    · exact fun h => TransferHookWhitelist.remove_hook_absent w pid h
    · exact fun w' h =>
        TransferHookWhitelist.remove_hook_ok_inv w pid w' hInv h

theorem C8_witness : fullWhitelist.add_hook 99 = .error .whitelistFull :=
  (C8_whitelist_invariant.2 fullWhitelist 99 (by decide)).1 (by decide)

/-- C9 (confirmed): `finalize` fails with `ProposalNotActive` on any
non-active status; on an active proposal it fails with
`VotingPeriodNotExpired` while `now < votingDeadline`, and once
`now ≥ votingDeadline` it succeeds, setting the status to `Approved`
exactly when `total_approve_stake ≥ 100·10^9` and to `Rejected`
otherwise; `total_reject_stake` never influences the outcome. -/
theorem C9_finalize_deterministic (p : HookProposal) (now : ℤ) :
    (p.status ≠ ProposalStatus.active →
      p.finalize now = .error .proposalNotActive) ∧
    (p.status = ProposalStatus.active → now < p.voting_deadline →
      p.finalize now = .error .votingPeriodNotExpired) ∧
    (p.status = ProposalStatus.active → p.voting_deadline ≤ now →
      p.finalize now = .ok { p with status :=
        if HookProposal.MIN_APPROVE_STAKE ≤ p.total_approve_stake then
          ProposalStatus.approved
        else ProposalStatus.rejected }) ∧
    (∀ r : ℕ, HookProposal.finalize now { p with total_reject_stake := r } =
      (p.finalize now).map fun q => { q with total_reject_stake := r }) := by
  refine ⟨?_, ?_, ?_, ?_⟩
  · intro h
    unfold HookProposal.finalize
    rw [if_pos h]
  · intro h hnow
    unfold HookProposal.finalize
    rw [if_neg (by simp [h]), if_pos hnow]
  · intro h hnow
    unfold HookProposal.finalize HookProposal.is_approved
    rw [if_neg (by simp [h]), if_neg (by omega)]
    rcases Decidable.em
      (HookProposal.MIN_APPROVE_STAKE ≤ p.total_approve_stake) with ht | ht
    · rw [if_pos (by simpa using ht), if_pos ht]
    · rw [if_neg (by simpa using ht), if_neg ht]
  · intro r
    unfold HookProposal.finalize HookProposal.is_approved
    dsimp only
    split_ifs <;> rfl

theorem C9_witness :
    pendingProposal.finalize 604800 =
      .ok { pendingProposal with status := ProposalStatus.rejected } := by
  have h := (C9_finalize_deterministic pendingProposal 604800).2.2.1 rfl
    (by decide)
  rw [h]
  decide

/-- C10 (confirmed): with positive deposit amounts,
`calculate_lp_tokens_for_liquidity` aborts with an unguarded division by
zero whenever `total_lp_supply > 0` and either reserve is zero (the
proportional-share branch divides by the reserves without a check), and
it never hits a division by zero when `total_lp_supply = 0` or both
reserves are positive. -/
theorem C10_deposit_quote_zero_reserve (p : AmmPool) (a b : ℕ) (ha : 0 < a)
    (hb : 0 < b) :
    (0 < p.total_lp_supply →
      (p.token_a_reserve = 0 ∨ p.token_b_reserve = 0) →
      p.calculate_lp_tokens_for_liquidity a b = .error .divByZero) ∧
    (p.total_lp_supply = 0 ∨
        (0 < p.token_a_reserve ∧ 0 < p.token_b_reserve) →
      p.calculate_lp_tokens_for_liquidity a b ≠ .error .divByZero) := by
  constructor
  · intro hs hz
    unfold AmmPool.calculate_lp_tokens_for_liquidity
    rw [if_neg (by omega), if_neg (by omega), if_neg (by omega)]
    rcases Nat.eq_zero_or_pos p.token_a_reserve with hra | hra
    · rw [if_pos hra]
    · rw [if_neg (by omega)]
      dsimp only
      rw [if_pos (by omega)]
  · intro hok
    unfold AmmPool.calculate_lp_tokens_for_liquidity
    rw [if_neg (by omega), if_neg (by omega)]
    rcases hok with hs | ⟨hra, hrb⟩
    · rw [if_pos hs]
      dsimp only
      split_ifs <;> simp
    · rcases Nat.eq_zero_or_pos p.total_lp_supply with hs | hs
      · rw [if_pos hs]
        dsimp only
        split_ifs <;> simp
      · rw [if_neg (by omega), if_neg (by omega)]
        dsimp only
        rw [if_neg (by omega)]
        simp

theorem C10_witness :
    0 < drainedPool.total_lp_supply ∧ drainedPool.token_a_reserve = 0 ∧
    drainedPool.calculate_lp_tokens_for_liquidity 1 1 =
      .error .divByZero :=
  ⟨by decide, by decide,
    (C10_deposit_quote_zero_reserve drainedPool 1 1 (by decide) (by decide)).1
      (by decide) (Or.inl (by decide))⟩
